import Mathlib

/-!
Shallow embedding of `src/v3_extractor.py` (class `AutocompleteExtractor`),
together with theorems settling the frozen claims about it.

Conventions used throughout:
* Python strings are Lean `String`s; Python's character comparison is by code
  point, matching Lean's `Char` order (`Char.lt` compares `Char.val`).
* Python `set`s are `Finset`s; the unordered `list(set)` serialization is
  modelled by a fixed (sorted) enumeration, which is one refinement of the
  unspecified iteration order and does not affect any set-level statement.
* Python floats are modelled as exact rationals (`ℚ`); every claim proved
  about them is an order/bound property preserved by the exact model.
* Loop guards of the form `for c in cs: if ok c: use c` are translated to
  `(cs.filter ok).map use`, which produces the same list of emitted items.
-/

/-- The primary character set `self.charset = string.digits + string.ascii_lowercase`
from `AutocompleteExtractor.__init__`. -/
def charsetL : List Char := "0123456789abcdefghijklmnopqrstuvwxyz".toList

/-- The secondary set `self.special_charset`: `string.punctuation` with the
backslash, the double quote and the single quote removed. -/
def special_charsetL : List Char := "!#$%&()*+,-./:;<=>?@[]^_\x60\x7b|\x7d~".toList

/-- The combined set `self.full_charset = self.charset + self.special_charset`. -/
def full_charsetL : List Char := charsetL ++ special_charsetL

/-- The priority boost used in `explore_prefix`:
`priority_boost = 5 if c in self.charset else 10`. -/
def priority_boost (c : Char) : Nat := if c ∈ charsetL then 5 else 10

/-- Embedding of `AutocompleteExtractor.explore_prefix` (lines 341-392).
Given the prefixes already explored, the configured `max_results`, the queried
prefix `p` and the suggestion page the service returned, it yields the pair
(names recorded into `discovered_names`, list of `(priority, prefix)` items
put on the priority queue, in emission order).  All suggestions are recorded
unconditionally; children are enqueued only when the page size equals
`max_results`: the pivot child `p + last_result[len(p)]` first at priority
`len(p)`, then every charset character strictly greater (by code point) than
the pivot at priority `len(p) + priority_boost`; when the last result does not
extend past `p`, every charset character is enqueued at
`len(p) + priority_boost`.  Each enqueue is suppressed when the extended
prefix is already explored. -/
def exploreStep (explored : Finset String) (max_results : Nat) (p : String)
    (suggestions : List String) : List String × List (Nat × String) :=
  let enq : List (Nat × String) :=
    if suggestions.length = max_results then
      match suggestions.getLast? with
      | none => []
      | some last_result =>
        if p.length < last_result.length then
          match last_result.toList.drop p.length with
          | [] => []
          | next_char :: _ =>
            (if p.push next_char ∈ explored then [] else [(p.length, p.push next_char)]) ++
            (((full_charsetL.filter (fun c => next_char < c)).filter
                (fun c => !(decide (p.push c ∈ explored)))).map
              (fun c => (p.length + priority_boost c, p.push c)))
        else
          ((full_charsetL.filter (fun c => !(decide (p.push c ∈ explored)))).map
            (fun c => (p.length + priority_boost c, p.push c)))
    else []
  (suggestions, enq)

/-- Claim C2: for a suggestion page strictly smaller than `max_results`,
`explore_prefix` records every returned suggestion and enqueues no children. -/
theorem C2_small_page_no_children (explored : Finset String) (max_results : Nat)
    (p : String) (suggestions : List String)
    (h : suggestions.length < max_results) :
    (exploreStep explored max_results p suggestions).1 = suggestions ∧
    (exploreStep explored max_results p suggestions).2 = [] := by
  refine ⟨rfl, ?_⟩
  simp only [exploreStep]
  rw [if_neg (Nat.ne_of_lt h)]

/-- Witness for C2 at the spec's Scenario B: querying "z" with
`max_results = 2` returns the single name "z"; it is recorded and nothing is
enqueued. -/
theorem C2_small_page_no_children_witness :
    (exploreStep ∅ 2 "z" ["z"]).1 = ["z"] ∧ (exploreStep ∅ 2 "z" ["z"]).2 = [] :=
  C2_small_page_no_children ∅ 2 "z" ["z"] (by decide)

/-- Claim C10: a page strictly larger than `max_results` also records all
suggestions and enqueues nothing; expansion triggers only at exact equality. -/
theorem C10_overfull_page_no_children (explored : Finset String) (max_results : Nat)
    (p : String) (suggestions : List String)
    (h : max_results < suggestions.length) :
    (exploreStep explored max_results p suggestions).1 = suggestions ∧
    (exploreStep explored max_results p suggestions).2 = [] := by
  refine ⟨rfl, ?_⟩
  simp only [exploreStep]
  rw [if_neg (Nat.ne_of_gt h)]

/-- Witness for C10: a page of two names against `max_results = 1` is fully
recorded while no child prefix is enqueued. -/
theorem C10_overfull_page_no_children_witness :
    (exploreStep ∅ 1 "a" ["aa", "ab"]).1 = ["aa", "ab"] ∧
    (exploreStep ∅ 1 "a" ["aa", "ab"]).2 = [] :=
  C10_overfull_page_no_children ∅ 1 "a" ["aa", "ab"] (by decide)

/-- Injectivity of extending a prefix by one character. -/
theorem push_inj {p : String} {a b : Char} (h : p.push a = p.push b) : a = b := by
  have h2 : p.data ++ [a] = p.data ++ [b] := congrArg String.data h
  simpa using h2

/-- The priority boost is positive, so every boosted priority is strictly
below (numerically above) the pivot priority `p.length`. -/
theorem priority_boost_pos (c : Char) : 0 < priority_boost c := by
  unfold priority_boost; split <;> omega

/-- Modelled from the spec: the configured charset order, in which every digit
precedes every letter and every letter precedes every punctuation character;
a character is smaller when it appears earlier in `full_charset`.  The code
itself never uses this order (it compares characters by code point), so it is
defined here only to state the claim that mentions it. -/
def configuredCharsetLt (a b : Char) : Bool :=
  full_charsetL.indexOf a < full_charsetL.indexOf b

/-- Counterexample to claim C1 as stated: for prefix "a" and a full page
ending in "aa" the pivot is 'a', and '!' is strictly greater than 'a' in the
configured charset order (digits < letters < punctuation), yet "a!" is not
enqueued, because the code compares characters by code point and '!' < 'a'
there. -/
theorem C1_pivot_order_cex :
    ("aa".toList.drop ("a".length) = ['a']) ∧
    configuredCharsetLt 'a' '!' = true ∧
    "a!" ∉ ((exploreStep ∅ 1 "a" ["aa"]).2.map Prod.snd) := by decide

/-- Claim C1, amended: for a page of size exactly `max_results` whose last
item extends the prefix, with no one-character extension explored yet, the
pivot child `p + lastName[len(p)]` is enqueued at priority `len(p)`, strictly
ahead of every other enqueued child, and a sibling `p + c` is enqueued exactly
for the charset characters `c` strictly greater than the pivot by code point
(Python's character order), not in the configured digits-letters-punctuation
order. -/
theorem C1_amended (explored : Finset String) (max_results : Nat)
    (p lastName : String) (suggestions : List String) (pivot : Char) (tl : List Char)
    (hlen : suggestions.length = max_results)
    (hlast : suggestions.getLast? = some lastName)
    (hdrop : lastName.toList.drop p.length = pivot :: tl)
    (hexp : ∀ c : Char, p.push c ∉ explored) :
    ((p.length, p.push pivot) ∈ (exploreStep explored max_results p suggestions).2) ∧
    (∀ q ∈ (exploreStep explored max_results p suggestions).2,
        q.2 ≠ p.push pivot → p.length < q.1) ∧
    (∀ c : Char, c ≠ pivot →
      ((∃ pr, (pr, p.push c) ∈ (exploreStep explored max_results p suggestions).2) ↔
        (c ∈ full_charsetL ∧ pivot < c))) := by
  have hlt : p.length < lastName.length := by
    by_contra hge
    have hnil : List.drop p.length lastName.toList = [] :=
      List.drop_eq_nil_of_le (Nat.le_of_not_lt hge)
    rw [hnil] at hdrop
    exact List.cons_ne_nil pivot tl hdrop.symm
  have hfilter : ∀ l : List Char,
      l.filter (fun c => !(decide (p.push c ∈ explored))) = l := by
    intro l
    apply List.filter_eq_self.mpr
    intro c _
    simp [hexp c]
  have hE : (exploreStep explored max_results p suggestions).2 =
      (p.length, p.push pivot) ::
        ((full_charsetL.filter (fun c => pivot < c)).map
          (fun c => (p.length + priority_boost c, p.push c))) := by
    simp only [exploreStep]
    rw [if_pos hlen, hlast]
    simp only
    rw [if_pos hlt, hdrop]
    simp only
    rw [if_neg (hexp pivot), hfilter, List.singleton_append]
  refine ⟨?_, ?_, ?_⟩
  · rw [hE]; exact List.mem_cons_self _ _
  · intro q hq hne
    rw [hE] at hq
    rcases List.mem_cons.mp hq with h | h
    · exact absurd (congrArg Prod.snd h) hne
    · rcases List.mem_map.mp h with ⟨c, _, hc⟩
      rw [← hc]
      have := priority_boost_pos c
      simp only
      omega
  · intro c hc
    constructor
    · rintro ⟨pr, hpr⟩
      rw [hE] at hpr
      rcases List.mem_cons.mp hpr with h | h
      · exact absurd (push_inj (congrArg Prod.snd h)) hc
      · rcases List.mem_map.mp h with ⟨c', hc', heq⟩
        have hcc : c' = c := push_inj (congrArg Prod.snd heq)
        rcases List.mem_filter.mp hc' with ⟨hmem, hgt⟩
        subst hcc
        exact ⟨hmem, by simpa using hgt⟩
    · rintro ⟨hmem, hgt⟩
      refine ⟨p.length + priority_boost c, ?_⟩
      rw [hE]
      refine List.mem_cons_of_mem _ (List.mem_map.mpr ⟨c, ?_, rfl⟩)
      exact List.mem_filter.mpr ⟨hmem, by simpa using hgt⟩

/-- Witness for the amended C1 at the spec's Scenario A shape: prefix "a",
`max_results = 1`, page ["aa"]; the pivot child "aa" is enqueued at
priority 1. -/
theorem C1_amended_witness :
    ((1 : Nat), "aa") ∈ (exploreStep ∅ 1 "a" ["aa"]).2 := by
  have h := C1_amended ∅ 1 "a" "aa" ["aa"] 'a' [] rfl rfl rfl (by simp)
  exact h.1

/-- Counterexample to claim C4 as stated: in the fallback case (prefix "q",
`max_results = 1`, page ["q"] whose last item has the prefix's length) the
children are not enqueued at a uniform priority: "qa" is enqueued at
priority 6 while "q!" is enqueued at priority 11. -/
theorem C4_uniform_priority_cex :
    ((6 : Nat), "qa") ∈ (exploreStep ∅ 1 "q" ["q"]).2 ∧
    ((11 : Nat), "q!") ∈ (exploreStep ∅ 1 "q" ["q"]).2 := by decide

/-- Claim C4, amended: for a full page whose last item has exactly the
prefix's length, with no one-character extension explored yet, the fallback
enqueues `p + c` for exactly the characters of the full charset, at two
priority tiers rather than one: `len(p) + 5` for alphanumeric characters and
`len(p) + 10` for special characters. -/
theorem C4_amended (explored : Finset String) (max_results : Nat)
    (p lastName : String) (suggestions : List String)
    (hlen : suggestions.length = max_results)
    (hlast : suggestions.getLast? = some lastName)
    (heq : lastName.length = p.length)
    (hexp : ∀ c : Char, p.push c ∉ explored) :
    ∀ c : Char,
      ((∃ pr, (pr, p.push c) ∈ (exploreStep explored max_results p suggestions).2) ↔
        c ∈ full_charsetL) ∧
      (∀ pr, (pr, p.push c) ∈ (exploreStep explored max_results p suggestions).2 →
        pr = p.length + priority_boost c) := by
  have hfilter : ∀ l : List Char,
      l.filter (fun c => !(decide (p.push c ∈ explored))) = l := by
    intro l
    apply List.filter_eq_self.mpr
    intro c _
    simp [hexp c]
  have hE : (exploreStep explored max_results p suggestions).2 =
      full_charsetL.map (fun c => (p.length + priority_boost c, p.push c)) := by
    simp only [exploreStep]
    rw [if_pos hlen, hlast]
    simp only
    rw [if_neg (by rw [heq]; exact lt_irrefl p.length), hfilter]
  intro c
  constructor
  · constructor
    · rintro ⟨pr, hpr⟩
      rw [hE] at hpr
      rcases List.mem_map.mp hpr with ⟨c', hc', hcc⟩
      have : c' = c := push_inj (congrArg Prod.snd hcc)
      subst this
      exact hc'
    · intro hmem
      exact ⟨p.length + priority_boost c, by
        rw [hE]; exact List.mem_map.mpr ⟨c, hmem, rfl⟩⟩
  · intro pr hpr
    rw [hE] at hpr
    rcases List.mem_map.mp hpr with ⟨c', hc', hcc⟩
    have : c' = c := push_inj (congrArg Prod.snd hcc)
    subst this
    exact (congrArg Prod.fst hcc).symm

/-- Witness for the amended C4 at the spec's Scenario C shape: prefix "q",
`max_results = 1`, page ["q"]; the child "qa" is enqueued (at priority
`len("q") + 5 = 6`). -/
theorem C4_amended_witness :
    ∃ pr, (pr, "qa") ∈ (exploreStep ∅ 1 "q" ["q"]).2 := by
  have h := C4_amended ∅ 1 "q" "q" ["q"] rfl rfl rfl (by simp)
  exact (h 'a').1.mpr (by decide)

/-- The state of the adaptive rate controller: the shared delay value
`self.adaptive_delay` and the rolling counters
`self.rate_limit_counters = {"success": 0, "failure": 0}`.  Python floats are
modelled as exact rationals. -/
structure RateState where
  adaptive_delay : ℚ
  success : Nat
  failure : Nat
deriving DecidableEq

/-- The bound `self.min_adaptive_delay = 0.8` from `__init__`. -/
def min_adaptive_delay : ℚ := 4 / 5

/-- The bound `self.max_adaptive_delay = 3.0` from `__init__`. -/
def max_adaptive_delay : ℚ := 3

/-- Embedding of `AutocompleteExtractor._adjust_delay` (lines 412-437).
On success, only when the rolling success ratio exceeds 0.85 and the success
counter exceeds 30, the delay decays by 3 percent (floored at the minimum) and
the counters are reset to the baseline 15/2; otherwise nothing changes.  On
failure, the delay grows by half (capped at the maximum) and the success
counter is reset to zero. -/
def adjust_delay (st : RateState) (success : Bool) : RateState :=
  if success then
    let success_ratio : ℚ :=
      (st.success : ℚ) / max 1 ((st.success : ℚ) + (st.failure : ℚ))
    if 17 / 20 < success_ratio ∧ 30 < st.success then
      { adaptive_delay := max min_adaptive_delay (st.adaptive_delay * (97 / 100)),
        success := 15, failure := 2 }
    else st
  else
    { adaptive_delay := min max_adaptive_delay (st.adaptive_delay * (3 / 2)),
      success := 0, failure := st.failure }

/-- One outcome report, as the call sites of `_adjust_delay` perform it: a
success (lines 157-159) first increments the success counter, a 429 failure
(lines 102-111) first increments the failure counter; then `_adjust_delay`
runs. -/
def reportOutcome (st : RateState) (success : Bool) : RateState :=
  if success then adjust_delay { st with success := st.success + 1 } true
  else adjust_delay { st with failure := st.failure + 1 } false

/-- The controller state after a whole sequence of outcome reports. -/
def runReports (st : RateState) (rs : List Bool) : RateState :=
  rs.foldl reportOutcome st

/-- The controller state at construction: `self.adaptive_delay =
rate_limit_delay`, both counters zero. -/
def initRateState (rate_limit_delay : ℚ) : RateState :=
  ⟨rate_limit_delay, 0, 0⟩

/-- One report keeps the delay inside the configured bounds. -/
theorem reportOutcome_bounds (st : RateState) (b : Bool)
    (h1 : min_adaptive_delay ≤ st.adaptive_delay)
    (h2 : st.adaptive_delay ≤ max_adaptive_delay) :
    min_adaptive_delay ≤ (reportOutcome st b).adaptive_delay ∧
    (reportOutcome st b).adaptive_delay ≤ max_adaptive_delay := by
  have hminmax : min_adaptive_delay ≤ max_adaptive_delay := by
    unfold min_adaptive_delay max_adaptive_delay; norm_num
  cases b with
  | false =>
    simp only [reportOutcome, adjust_delay, if_neg, Bool.false_eq_true, if_false]
    constructor
    · refine le_min hminmax ?_
      unfold min_adaptive_delay at h1 ⊢
      linarith
    · exact min_le_left _ _
  | true =>
    simp only [reportOutcome, adjust_delay, if_true]
    split
    · constructor
      · exact le_max_left _ _
      · refine max_le hminmax ?_
        unfold max_adaptive_delay at h2 ⊢
        linarith
    · exact ⟨h1, h2⟩

/-- Counterexample to claim C5 as stated: an extractor constructed with
`rate_limit_delay = 5` starts with an adaptive delay of 5, and after a
success report the delay is still 5, strictly above `max_adaptive_delay = 3`;
nothing in the code clamps the initial delay into the band. -/
theorem C5_delay_bounds_cex :
    max_adaptive_delay < (runReports (initRateState 5) [true]).adaptive_delay := by
  norm_num [runReports, reportOutcome, adjust_delay, initRateState,
    max_adaptive_delay, min_adaptive_delay]

/-- Claim C5, amended: provided the configured `rate_limit_delay` starts
inside `[min_adaptive_delay, max_adaptive_delay]` (as the default 1.0 does),
the adaptive delay stays inside that band after every sequence of
success/failure reports. -/
theorem C5_delay_bounds_amended (rate_limit_delay : ℚ) (rs : List Bool)
    (h1 : min_adaptive_delay ≤ rate_limit_delay)
    (h2 : rate_limit_delay ≤ max_adaptive_delay) :
    min_adaptive_delay ≤ (runReports (initRateState rate_limit_delay) rs).adaptive_delay ∧
    (runReports (initRateState rate_limit_delay) rs).adaptive_delay ≤ max_adaptive_delay := by
  suffices h : ∀ (rs : List Bool) (st : RateState),
      min_adaptive_delay ≤ st.adaptive_delay →
      st.adaptive_delay ≤ max_adaptive_delay →
      min_adaptive_delay ≤ (runReports st rs).adaptive_delay ∧
      (runReports st rs).adaptive_delay ≤ max_adaptive_delay by
    exact h rs (initRateState rate_limit_delay) h1 h2
  intro rs
  induction rs with
  | nil => intro st ha hb; exact ⟨ha, hb⟩
  | cons b rest ih =>
    intro st ha hb
    have hstep := reportOutcome_bounds st b ha hb
    exact ih (reportOutcome st b) hstep.1 hstep.2

/-- Witness for the amended C5 at the default configuration
`rate_limit_delay = 1.0` and the report sequence failure-then-success. -/
theorem C5_delay_bounds_witness :
    min_adaptive_delay ≤ (runReports (initRateState 1) [false, true]).adaptive_delay ∧
    (runReports (initRateState 1) [false, true]).adaptive_delay ≤ max_adaptive_delay :=
  C5_delay_bounds_amended 1 [false, true]
    (by norm_num [min_adaptive_delay]) (by norm_num [max_adaptive_delay])

/-- Claim C8: the `_adjust_delay` update rule.  On failure the delay becomes
`min(max_adaptive_delay, delay * 1.5)` and the success counter is reset while
the failure counter is kept; on success, exactly when the rolling success
ratio exceeds 0.85 (stated here cross-multiplied by the positive sample size)
and the success sample exceeds 30, the delay becomes
`max(min_adaptive_delay, delay * 0.97)` and the counters are reset to the
non-zero baseline (15, 2); otherwise the state is left unchanged. -/
theorem C8_adjust_rule (st : RateState) :
    ((adjust_delay st false).adaptive_delay =
        min max_adaptive_delay (st.adaptive_delay * (3 / 2)) ∧
      (adjust_delay st false).success = 0 ∧
      (adjust_delay st false).failure = st.failure) ∧
    (adjust_delay st true =
      if (17 / 20 : ℚ) * max 1 ((st.success : ℚ) + (st.failure : ℚ)) < (st.success : ℚ) ∧
          30 < st.success then
        { adaptive_delay := max min_adaptive_delay (st.adaptive_delay * (97 / 100)),
          success := 15, failure := 2 }
      else st) := by
  have hpos : (0 : ℚ) < max 1 ((st.success : ℚ) + (st.failure : ℚ)) :=
    lt_of_lt_of_le one_pos (le_max_left _ _)
  refine ⟨⟨rfl, rfl, rfl⟩, ?_⟩
  by_cases h : (17 / 20 : ℚ) * max 1 ((st.success : ℚ) + (st.failure : ℚ)) <
      (st.success : ℚ) ∧ 30 < st.success
  · rw [if_pos h]
    simp only [adjust_delay, if_true]
    rw [if_pos ⟨(lt_div_iff₀ hpos).mpr h.1, h.2⟩]
  · rw [if_neg h]
    simp only [adjust_delay, if_true]
    rw [if_neg (fun hc => h ⟨(lt_div_iff₀ hpos).mp hc.1, hc.2⟩)]

/-- One observable outcome of a single HTTP attempt inside
`get_autocomplete_suggestions`: an HTTP response with its status code and,
for status 200, whether the JSON body carries a well-formed `results` list
(`some results`) or not (`none`); or a transport error raised by the request
(`requests.exceptions.RequestException`). -/
inductive Response where
  | http (code : Nat) (body : Option (List String))
  | networkError
deriving DecidableEq

/-- What one call of `get_autocomplete_suggestions` produced: the list
returned to the caller, the ordered outcome reports delivered to the rate
controller (`true` = success report, `false` = failure report), and the
attempts actually consumed. -/
structure FetchOut where
  result : List String
  reports : List Bool
  attempts : List Response
deriving DecidableEq

/-- Embedding of `AutocompleteExtractor.get_autocomplete_suggestions`
(lines 70-196), driven by the scripted sequence of attempt outcomes.  Each
recursive retry consumes the next outcome.  A 429 increments the failure
counter and adjusts the delay (one failure report) and retries while
`retry_count < max_retries`, else returns `[]`.  A non-200 status below 500
returns `[]` immediately; a 5xx retries (without any report) while retries
remain, else returns `[]`.  A 200 whose body has a `results` list reports one
success and returns the list; a malformed 200 body returns `[]` with no
report.  A transport error retries (without any report) while retries remain,
else returns `[]`.  An exhausted script returns `[]` (no further attempts are
made). -/
def get_autocomplete_suggestions : List Response → Nat → Nat → FetchOut
  | [], _, _ => ⟨[], [], []⟩
  | r :: rest, retry_count, max_retries =>
    match r with
    | Response.http code body =>
      if code = 429 then
        if retry_count < max_retries then
          let o := get_autocomplete_suggestions rest (retry_count + 1) max_retries
          ⟨o.result, false :: o.reports, r :: o.attempts⟩
        else ⟨[], [false], [r]⟩
      else if code ≠ 200 then
        if 500 ≤ code ∧ retry_count < max_retries then
          let o := get_autocomplete_suggestions rest (retry_count + 1) max_retries
          ⟨o.result, o.reports, r :: o.attempts⟩
        else ⟨[], [], [r]⟩
      else
        match body with
        | some results => ⟨results, [true], [r]⟩
        | none => ⟨[], [], [r]⟩
    | Response.networkError =>
      if retry_count < max_retries then
        let o := get_autocomplete_suggestions rest (retry_count + 1) max_retries
        ⟨o.result, o.reports, r :: o.attempts⟩
      else ⟨[], [], [r]⟩

/-- An attempt outcome the code retries on: a 429, a 5xx, or a transport
error. -/
def isRetryFailure : Response → Bool
  | Response.http code _ => code == 429 || 500 ≤ code
  | Response.networkError => true

/-- An attempt outcome that is exactly a 429 response. -/
def is429 : Response → Bool
  | Response.http code _ => code == 429
  | Response.networkError => false

/-- An attempt outcome that is a 200 response with a well-formed body. -/
def isOkWellFormed : Response → Bool
  | Response.http code body => code == 200 && body.isSome
  | Response.networkError => false

/-- Counterexample to claim C6 as stated: in a run where a 5xx response is
followed by a successful 200, the retryable-failure occurrences number 1 (the
5xx) but zero failure reports reach the rate controller — the code reports
failure only for 429 responses, never for 5xx or network errors. -/
theorem C6_failure_report_cex :
    (get_autocomplete_suggestions
        [Response.http 500 none, Response.http 200 (some ["x"])] 0 8).attempts.countP
        isRetryFailure = 1 ∧
    (get_autocomplete_suggestions
        [Response.http 500 none, Response.http 200 (some ["x"])] 0 8).reports.count
        false = 0 := by decide

/-- Claim C6, amended: across any fetch, the failure reports delivered to the
rate controller number exactly one per 429 occurrence among the consumed
attempts — 5xx responses and network errors are retried without any failure
report — and the success reports number exactly one per 200-with-well-formed-
body occurrence. -/
theorem C6_amended (rs : List Response) (rc mr : Nat) :
    (get_autocomplete_suggestions rs rc mr).reports.count false =
      (get_autocomplete_suggestions rs rc mr).attempts.countP is429 ∧
    (get_autocomplete_suggestions rs rc mr).reports.count true =
      (get_autocomplete_suggestions rs rc mr).attempts.countP isOkWellFormed := by
  induction rs generalizing rc with
  | nil => exact ⟨rfl, rfl⟩
  | cons r rest ih =>
    cases r with
    | http code body =>
      by_cases h429 : code = 429
      · subst h429
        by_cases hrc : rc < mr
        · have h := ih (rc + 1)
          simp [get_autocomplete_suggestions, hrc, is429, isOkWellFormed,
            List.countP_cons, h.1, h.2]
        · simp [get_autocomplete_suggestions, hrc, is429, isOkWellFormed]
      · by_cases h200 : code = 200
        · subst h200
          cases body with
          | some results =>
            simp [get_autocomplete_suggestions, is429, isOkWellFormed]
          | none =>
            simp [get_autocomplete_suggestions, is429, isOkWellFormed]
        · by_cases hretry : 500 ≤ code ∧ rc < mr
          · have h := ih (rc + 1)
            simp [get_autocomplete_suggestions, h429, h200, hretry, is429,
              isOkWellFormed, List.countP_cons, h.1, h.2]
          · simp [get_autocomplete_suggestions, h429, h200, hretry, is429,
              isOkWellFormed]
    | networkError =>
      by_cases hrc : rc < mr
      · have h := ih (rc + 1)
        simp [get_autocomplete_suggestions, hrc, is429, isOkWellFormed,
          List.countP_cons, h.1, h.2]
      · simp [get_autocomplete_suggestions, hrc, is429, isOkWellFormed]

/-- Claim C7: when every attempt outcome is a retryable failure (429, 5xx or
transport error), the fetch returns the empty list to its caller — the
embedding is a total function, mirroring that the code converts exhausted
retries into `return []` instead of letting an exception escape. -/
theorem C7_exhausted_returns_empty : ∀ (rs : List Response) (rc mr : Nat),
    (∀ r ∈ rs, isRetryFailure r = true) →
    (get_autocomplete_suggestions rs rc mr).result = []
  | [], _, _, _ => rfl
  | r :: rest, rc, mr, h => by
    have hr : isRetryFailure r = true := h r (List.mem_cons_self r rest)
    have hrest : ∀ x ∈ rest, isRetryFailure x = true :=
      fun x hx => h x (List.mem_cons_of_mem r hx)
    have ih := C7_exhausted_returns_empty rest (rc + 1) mr hrest
    cases r with
    | http code body =>
      have hcode : code = 429 ∨ 500 ≤ code := by
        simpa [isRetryFailure] using hr
      by_cases h429 : code = 429
      · subst h429
        by_cases hrc : rc < mr
        · simp [get_autocomplete_suggestions, hrc, ih]
        · simp [get_autocomplete_suggestions, hrc]
      · have h500 : 500 ≤ code := hcode.resolve_left h429
        have h200 : code ≠ 200 := by omega
        by_cases hrc : rc < mr
        · simp [get_autocomplete_suggestions, h429, h200, h500, hrc, ih]
        · simp [get_autocomplete_suggestions, h429, h200, h500, hrc]
    | networkError =>
      by_cases hrc : rc < mr
      · simp [get_autocomplete_suggestions, hrc, ih]
      · simp [get_autocomplete_suggestions, hrc]

/-- Witness for C7: two 429 responses against a retry budget of one produce
an empty result. -/
theorem C7_exhausted_returns_empty_witness :
    (get_autocomplete_suggestions
      [Response.http 429 none, Response.http 429 none] 0 1).result = [] :=
  C7_exhausted_returns_empty
    [Response.http 429 none, Response.http 429 none] 0 1 (by decide)

/-- The in-memory state that checkpointing captures: the two shared sets and
the request counter (`prefix_length_stats` is diagnostic only; no claim
concerns it). -/
structure ExtractorSets where
  discovered_names : Finset String
  explored_prefixes : Finset String
  request_count : Nat

/-- The checkpoint record written by `_save_checkpoint`: the two sets
serialized as lists, plus the request counter. -/
structure Checkpoint where
  discovered_names : List String
  explored_prefixes : List String
  request_count : Nat

/-- Embedding of `AutocompleteExtractor._save_checkpoint` (lines 439-462):
the sets are serialized with `list(...)`.  Python's set iteration order is
unspecified, so the model fixes the sorted enumeration of each set — one
refinement of that order; no set-level statement depends on it. -/
def save_checkpoint (st : ExtractorSets) : Checkpoint :=
  ⟨st.discovered_names.sort (· ≤ ·), st.explored_prefixes.sort (· ≤ ·),
   st.request_count⟩

/-- Embedding of the frontier reconstruction inside
`AutocompleteExtractor._load_checkpoint` (lines 486-504): the explored
prefixes are walked in ascending length order (the code groups them by
length and iterates the lengths sorted — a stable sort by length), and for
each one every primary-charset extension not itself explored is enqueued at
priority `len(prefix) + 1`. -/
def reconstructFrontier (explored : List String) : List (Nat × String) :=
  (explored.mergeSort (fun a b => a.length ≤ b.length)).flatMap
    (fun p => ((charsetL.filter (fun c => !(decide (p.push c ∈ explored)))).map
      (fun c => (p.length + 1, p.push c))))

/-- Embedding of `AutocompleteExtractor._load_checkpoint` (lines 464-509):
restore the two sets and the counter from the record, then rebuild the
frontier from the explored prefixes. -/
def load_checkpoint (cp : Checkpoint) : ExtractorSets × List (Nat × String) :=
  (⟨cp.discovered_names.toFinset, cp.explored_prefixes.toFinset,
    cp.request_count⟩,
   reconstructFrontier cp.explored_prefixes)

/-- The characters of the primary charset are pairwise distinct. -/
theorem charsetL_nodup : charsetL.Nodup := by decide

/-- Helper: the length of a flatMap is the sum of the mapped lengths. -/
theorem length_flatMap_sum {α β : Type} (l : List α) (f : α → List β) :
    (l.flatMap f).length = (l.map (fun a => (f a).length)).sum := by
  rw [List.flatMap_def, List.length_flatten, List.map_map]
  rfl

/-- Helper: the size of a filtered product counted fiberwise. -/
theorem card_filter_product_eq_sum {α β : Type} [DecidableEq α] [DecidableEq β]
    (s : Finset α) (t : Finset β) (P : α × β → Prop) [DecidablePred P] :
    ((s ×ˢ t).filter P).card = ∑ a ∈ s, (t.filter (fun b => P (a, b))).card := by
  rw [Finset.card_filter, Finset.sum_product]
  exact Finset.sum_congr rfl fun a _ => (Finset.card_filter _ _).symm

/-- Claim C3: saving a checkpoint and loading it back reproduces exactly the
same `discovered_names` and `explored_prefixes` sets, and the reconstructed
frontier has exactly one entry per (explored prefix, charset character) pair
whose one-character extension is not itself explored. -/
theorem C3_checkpoint_roundtrip (st : ExtractorSets) :
    (load_checkpoint (save_checkpoint st)).1.discovered_names = st.discovered_names ∧
    (load_checkpoint (save_checkpoint st)).1.explored_prefixes = st.explored_prefixes ∧
    (load_checkpoint (save_checkpoint st)).2.length =
      ((st.explored_prefixes ×ˢ charsetL.toFinset).filter
        (fun q => q.1.push q.2 ∉ st.explored_prefixes)).card := by
  refine ⟨Finset.sort_toFinset _ _, Finset.sort_toFinset _ _, ?_⟩
  have hnodup : (st.explored_prefixes.sort (· ≤ ·)).Nodup := Finset.sort_nodup _ _
  have htf : (st.explored_prefixes.sort (· ≤ ·)).toFinset = st.explored_prefixes :=
    Finset.sort_toFinset _ _
  have hmem : ∀ x : String,
      x ∈ st.explored_prefixes.sort (· ≤ ·) ↔ x ∈ st.explored_prefixes :=
    fun x => Finset.mem_sort _
  have hinner : ∀ p : String,
      ((charsetL.filter
          (fun c => !(decide (p.push c ∈ st.explored_prefixes.sort (· ≤ ·))))).map
        (fun c => (p.length + 1, p.push c))).length =
      (charsetL.toFinset.filter (fun c => p.push c ∉ st.explored_prefixes)).card := by
    intro p
    rw [List.length_map,
      (List.toFinset_card_of_nodup (charsetL_nodup.filter _)).symm,
      List.toFinset_filter]
    congr 1
    apply Finset.filter_congr
    intro c _
    simp [hmem]
  show (reconstructFrontier (st.explored_prefixes.sort (· ≤ ·))).length = _
  rw [reconstructFrontier, length_flatMap_sum]
  rw [((List.mergeSort_perm (st.explored_prefixes.sort (· ≤ ·))
      (fun a b => a.length ≤ b.length)).map _).sum_eq]
  rw [← List.sum_toFinset _ hnodup, htf, card_filter_product_eq_sum]
  exact Finset.sum_congr rfl fun p _ => hinner p

/-- The shared crawl state a worker manipulates: the priority queue of
pending `(priority, prefix)` items, the explored-prefix set, the
discovered-name set, and the request counter. -/
structure CrawlState where
  queue : List (Nat × String)
  explored : Finset String
  discovered : Finset String
  request_count : Nat

/-- The heap order of Python's `PriorityQueue` on `(priority, prefix)`
tuples: by priority first, then by the prefix string (code-point
lexicographic), matching Python tuple comparison. -/
def pairLe (a b : Nat × String) : Bool :=
  decide (a.1 < b.1 ∨ (a.1 = b.1 ∧ a.2 ≤ b.2))

/-- Removing the minimum item from the queue, as `PriorityQueue.get` does;
`none` when the queue is empty (the `queue.Empty` timeout path). -/
def popMin : List (Nat × String) → Option ((Nat × String) × List (Nat × String))
  | [] => none
  | x :: xs =>
    match popMin xs with
    | none => some (x, [])
    | some (m, rest) => if pairLe x m then some (x, xs) else some (m, x :: rest)

/-- One iteration of `AutocompleteExtractor.worker` (lines 298-331), with the
remote service abstracted as a deterministic oracle `env` giving the
suggestion page each fetched prefix receives.  The worker pops the minimum
queue item; if the prefix is already explored it only discards the item
(`task_done` and `continue`) — no fetch happens; otherwise it fetches (one
request), runs `explore_prefix`, merges the names, enqueues the children and
marks the prefix explored.  The second component reports which prefix was
fetched, if any. -/
def workerStep (env : String → List String) (max_results : Nat)
    (st : CrawlState) : CrawlState × Option String :=
  match popMin st.queue with
  | none => (st, none)
  | some ((_, p), rest) =>
    if p ∈ st.explored then ({ st with queue := rest }, none)
    else
      let out := exploreStep st.explored max_results p (env p)
      (⟨rest ++ out.2, insert p st.explored, st.discovered ∪ out.1.toFinset,
        st.request_count + 1⟩, some p)

/-- Iterating the worker `n` times, collecting the list of fetched
prefixes. -/
def runWorker (env : String → List String) (max_results : Nat) :
    Nat → CrawlState → CrawlState × List String
  | 0, st => (st, [])
  | n + 1, st =>
    let s := workerStep env max_results st
    let r := runWorker env max_results n s.1
    (r.1, s.2.toList ++ r.2)

/-- A worker step never removes anything from the explored set. -/
theorem workerStep_explored_mono (env : String → List String) (max_results : Nat)
    (st : CrawlState) {p : String} (hp : p ∈ st.explored) :
    p ∈ (workerStep env max_results st).1.explored := by
  unfold workerStep
  cases hq : popMin st.queue with
  | none => exact hp
  | some q =>
    obtain ⟨⟨pr, x⟩, rest⟩ := q
    by_cases hx : x ∈ st.explored
    · simp only [hx, if_true]
      exact hp
    · simp only [hx, if_false]
      exact Finset.mem_insert_of_mem hp

/-- A worker step fetches only prefixes that were not yet explored, and any
fetched prefix is explored immediately afterwards. -/
theorem workerStep_fetch_spec (env : String → List String) (max_results : Nat)
    (st : CrawlState) {p : String}
    (h : (workerStep env max_results st).2 = some p) :
    p ∉ st.explored ∧ p ∈ (workerStep env max_results st).1.explored := by
  unfold workerStep at h ⊢
  cases hq : popMin st.queue with
  | none => rw [hq] at h; exact absurd h (by simp)
  | some q =>
    obtain ⟨⟨pr, x⟩, rest⟩ := q
    rw [hq] at h
    by_cases hx : x ∈ st.explored
    · simp only [hx, if_true] at h
      exact absurd h (by simp)
    · simp only [hx, if_false] at h
      have hxp : x = p := by simpa using h
      subst hxp
      refine ⟨hx, ?_⟩
      simp only [hx, if_false]
      exact Finset.mem_insert_self _ _

/-- A prefix that is already in the explored set is never fetched by any
number of further worker iterations. -/
theorem runWorker_no_refetch (env : String → List String) (max_results : Nat) :
    ∀ (n : Nat) (st : CrawlState) (p : String), p ∈ st.explored →
      p ∉ (runWorker env max_results n st).2
  | 0, st, p, hp => by simp [runWorker]
  | n + 1, st, p, hp => by
    have hmono := workerStep_explored_mono env max_results st hp
    have ih := runWorker_no_refetch env max_results n
      (workerStep env max_results st).1 p hmono
    simp only [runWorker, List.mem_append, not_or]
    refine ⟨?_, ih⟩
    cases hf : (workerStep env max_results st).2 with
    | none => simp
    | some q =>
      have := (workerStep_fetch_spec env max_results st hf).1
      simp only [Option.toList_some, List.mem_singleton]
      intro hpq
      exact this (hpq ▸ hp)

/-- The list of prefixes fetched by iterated worker steps never repeats. -/
theorem runWorker_fetches_nodup (env : String → List String) (max_results : Nat) :
    ∀ (n : Nat) (st : CrawlState), ((runWorker env max_results n st).2).Nodup
  | 0, st => by simp [runWorker]
  | n + 1, st => by
    have ih := runWorker_fetches_nodup env max_results n (workerStep env max_results st).1
    simp only [runWorker]
    cases hf : (workerStep env max_results st).2 with
    | none => simpa using ih
    | some q =>
      have hq := (workerStep_fetch_spec env max_results st hf).2
      have hnot := runWorker_no_refetch env max_results n
        (workerStep env max_results st).1 q hq
      simpa [List.nodup_cons] using ⟨hnot, ih⟩

/-- Claim C9: a dequeued prefix that is already explored is discarded
without a fetch — the state keeps its request counter, explored set and
discovered set, only the queue shrinks, and no fetch is recorded; moreover a
prefix in the explored set is never fetched later, and across any number of
iterations no prefix is ever fetched twice. -/
theorem C9_no_redundant_fetch (env : String → List String) (max_results : Nat)
    (st : CrawlState) (n : Nat) :
    (∀ pr p rest, popMin st.queue = some ((pr, p), rest) → p ∈ st.explored →
      workerStep env max_results st = ({ st with queue := rest }, none)) ∧
    (∀ p ∈ st.explored, p ∉ (runWorker env max_results n st).2) ∧
    ((runWorker env max_results n st).2).Nodup := by
  refine ⟨?_, fun p hp => runWorker_no_refetch env max_results n st p hp,
    runWorker_fetches_nodup env max_results n st⟩
  intro pr p rest hq hp
  unfold workerStep
  rw [hq]
  simp only [hp, if_true]

/-- Witness for C9: a queue holding only the already-explored prefix "a" is
drained without any fetch, and iterated runs fetch nothing (trivially without
repetition). -/
theorem C9_no_redundant_fetch_witness :
    workerStep (fun _ => []) 2 ⟨[(1, "a")], {"a"}, ∅, 0⟩ =
      (⟨[], {"a"}, ∅, 0⟩, none) ∧
    ((runWorker (fun _ => []) 2 3 ⟨[(1, "a")], {"a"}, ∅, 0⟩).2).Nodup := by
  refine ⟨?_, (C9_no_redundant_fetch (fun _ => []) 2 ⟨[(1, "a")], {"a"}, ∅, 0⟩ 3).2.2⟩
  exact (C9_no_redundant_fetch (fun _ => []) 2 ⟨[(1, "a")], {"a"}, ∅, 0⟩ 3).1
    1 "a" [] rfl (by decide)
